import Mathlib

/-!
Verification development for the senobi-tools core: a shallow embedding of
the BYML document reader/writer and the Yaz0 decompressor
(crates/library/src/byml/{reader,writer,types,mod}.rs and
crates/library/src/yaz0/mod.rs), with theorems settling the specification
claims about them.

Byte buffers and streams are modelled as `List Nat` whose elements are byte
values (< 256).  Machine integers are modelled as `Nat` with explicit
`% 2^w` where wrap-around matters.  Rust panics (arithmetic underflow,
slice-index and `unwrap` failures) are modelled as explicit `panicked`
outcomes of the corresponding result types.
-/

namespace Senobi

/-- Byte order parameter (zerocopy's `ByteOrder`), selected per document. -/
inductive ByteOrd where
  | le
  | be
deriving DecidableEq, Repr

/-- `util::align_up(value, alignment) = (value + alignment - 1) & !(alignment - 1)`;
for a power-of-two alignment and no integer wrap this rounds up to a multiple. -/
def align_up (value alignment : Nat) : Nat :=
  (value + alignment - 1) - (value + alignment - 1) % alignment

/-- Big-endian u32 from four bytes. -/
def u32be (b0 b1 b2 b3 : Nat) : Nat :=
  ((b0 * 256 + b1) * 256 + b2) * 256 + b3

/-- Little-endian u32 from four bytes. -/
def u32le (b0 b1 b2 b3 : Nat) : Nat :=
  ((b3 * 256 + b2) * 256 + b1) * 256 + b0

/-- A u32 interpreted from four bytes in the given byte order. -/
def u32At (o : ByteOrd) (b0 b1 b2 b3 : Nat) : Nat :=
  match o with
  | .le => u32le b0 b1 b2 b3
  | .be => u32be b0 b1 b2 b3

/-- The four bytes of a u32 value in the given byte order. -/
def u32Bytes (o : ByteOrd) (v : Nat) : List Nat :=
  match o with
  | .le => [v % 256, v / 256 % 256, v / 65536 % 256, v / 16777216 % 256]
  | .be => [v / 16777216 % 256, v / 65536 % 256, v / 256 % 256, v % 256]

/-- The two bytes of a u16 value in the given byte order. -/
def u16Bytes (o : ByteOrd) (v : Nat) : List Nat :=
  match o with
  | .le => [v % 256, v / 256 % 256]
  | .be => [v / 256 % 256, v % 256]

/-- The eight bytes of a u64 value in the given byte order. -/
def u64Bytes (o : ByteOrd) (v : Nat) : List Nat :=
  match o with
  | .le => [v % 256, v / 256 % 256, v / 2^16 % 256, v / 2^24 % 256,
            v / 2^32 % 256, v / 2^40 % 256, v / 2^48 % 256, v / 2^56 % 256]
  | .be => [v / 2^56 % 256, v / 2^48 % 256, v / 2^40 % 256, v / 2^32 % 256,
            v / 2^24 % 256, v / 2^16 % 256, v / 256 % 256, v % 256]

/-- Lexicographic comparison of byte strings, as Rust's `Ord` on `&[u8]`:
first differing byte decides, otherwise the shorter string is smaller. -/
def lexCompare : List Nat → List Nat → Ordering
  | [], [] => .eq
  | [], _ :: _ => .lt
  | _ :: _, [] => .gt
  | a :: as, b :: bs => if a < b then .lt else if b < a then .gt else lexCompare as bs

theorem lexCompare_self (a : List Nat) : lexCompare a a = .eq := by
  induction a with
  | nil => rfl
  | cons x xs ih => simp [lexCompare, ih]

theorem lexCompare_eq_iff (a b : List Nat) : lexCompare a b = .eq ↔ a = b := by
  induction a generalizing b with
  | nil => cases b <;> simp [lexCompare]
  | cons x xs ih =>
    cases b with
    | nil => simp [lexCompare]
    | cons y ys =>
      simp only [lexCompare]
      by_cases h1 : x < y
      · simp [h1]; omega
      · by_cases h2 : y < x
        · simp [h1, h2]; omega
        · have : x = y := by omega
          simp [h1, h2, this, ih]

theorem lexCompare_gt_iff (a b : List Nat) : lexCompare a b = .gt ↔ lexCompare b a = .lt := by
  induction a generalizing b with
  | nil => cases b <;> simp [lexCompare]
  | cons x xs ih =>
    cases b with
    | nil => simp [lexCompare]
    | cons y ys =>
      simp only [lexCompare]
      by_cases h1 : x < y
      · have h2 : ¬ y < x := by omega
        simp [h1, h2]
      · by_cases h2 : y < x
        · simp [h1, h2]
        · simp [h1, h2, ih]

/-! ## Yaz0 decompressor (yaz0/mod.rs) -/

/-- The `DecompressionError` variants of the Yaz0 decompressor
(payload fields are diagnostic only and omitted). -/
inductive Yaz0Error where
  | ioFailure
  | incorrectMagic
  | copyingPastEnd
  | copyingFromBeforeStart
deriving DecidableEq, Repr

/-- `ShortCopy::from_bytes([b0, b1])` followed by the short-form decode in
`decompress`: `modular_bitfield` packs the first declared field into the
least significant bits, so on the 16-bit little-endian value
`b0 + 256*b1` the fields are `lookback_upper` = bits 0-3,
`copy_count` = bits 4-7, `lookback_lower` = bits 8-15.  The decode lines are
`(short_copy.copy_count() + 0x02, ((upper << 8) | lower) + 1)`.
Returns `(copy_count, lookback_distance)`. -/
def shortCopyDecode (b0 b1 : Nat) : Nat × Nat :=
  let u := b0 + 256 * b1
  let lookback_upper := u % 16
  let copy_count := u / 16 % 16
  let lookback_lower := u / 256 % 256
  (copy_count + 0x02, lookback_upper * 256 + lookback_lower + 1)

/-- `LongCopy::from_bytes([b0, b1, b2])` followed by the long-form decode in
`decompress`: on the 24-bit little-endian value the fields are
`lookback_upper` = bits 0-3, `zero` = bits 4-7, `lookback_lower` = bits 8-15,
`copy_count` = bits 16-23.  The decode computes
`long_copy.copy_count() + 0x12` in `u8` arithmetic, which wraps modulo 256
(and panics in debug builds) for `copy_count ≥ 0xEE`.
Returns `(copy_count, lookback_distance)`. -/
def longCopyDecode (b0 b1 b2 : Nat) : Nat × Nat :=
  let u := b0 + 256 * b1 + 65536 * b2
  let lookback_upper := u % 16
  let lookback_lower := u / 256 % 256
  let copy_count := u / 65536 % 256
  ((copy_count + 0x12) % 256, lookback_upper * 256 + lookback_lower + 1)

/-- The back-reference copy of `decompress`: the bounds `ensure!` against the
pre-sized capacity (`decomp_size`), the `checked_sub` of the lookback
distance, then `extend` with `copy_count` zeros followed by
`copy_within(start..start + copy_count, dest_start)` — a `memmove`, whose
source bytes are taken from the buffer as it was before the copy. -/
def copyStep (out : List Nat) (size copy_count lookback_distance : Nat) :
    Except Yaz0Error (List Nat) :=
  if size < out.length + copy_count then
    .error .copyingPastEnd
  else if out.length < lookback_distance then
    .error .copyingFromBeforeStart
  else
    let start := out.length - lookback_distance
    let dest_start := out.length
    let extended := out ++ List.replicate copy_count 0
    .ok (extended.take dest_start ++ (extended.drop start).take copy_count
          ++ extended.drop (dest_start + copy_count))

/-- One iteration of the body of the `decompress` loop, with `rec` the
continuation of the loop (see `yaz0Loop`). -/
def yaz0Body (rec : List Nat → Nat → Nat → List Nat → Nat → Except Yaz0Error (List Nat))
    (input : List Nat) (group_value group_remaining : Nat) (out : List Nat)
    (size : Nat) : Except Yaz0Error (List Nat) :=
  if size ≤ out.length then .ok out
  else if group_remaining = 0 then
    match input with
    | [] => .error .ioFailure
    | b :: rest => rec rest b 8 out size
  else if group_value % 256 / 128 ≠ 0 then
    match input with
    | [] => .error .ioFailure
    | b :: rest =>
        rec rest (group_value % 256 * 2 % 256) (group_remaining - 1) (out ++ [b]) size
  else
    match input with
    | b0 :: b1 :: b2 :: rest3 =>
      if b0 % 256 / 16 = 0 then
        match copyStep out size (longCopyDecode b0 b1 b2).1 (longCopyDecode b0 b1 b2).2 with
        | .error e => .error e
        | .ok out2 =>
            rec rest3 (group_value % 256 * 2 % 256) (group_remaining - 1) out2 size
      else
        match copyStep out size (shortCopyDecode b0 b1).1 (shortCopyDecode b0 b1).2 with
        | .error e => .error e
        | .ok out2 =>
            rec (b2 :: rest3) (group_value % 256 * 2 % 256) (group_remaining - 1) out2 size
    | [b0, b1] =>
      if b0 % 256 / 16 = 0 then .error .ioFailure
      else
        match copyStep out size (shortCopyDecode b0 b1).1 (shortCopyDecode b0 b1).2 with
        | .error e => .error e
        | .ok out2 =>
            rec [] (group_value % 256 * 2 % 256) (group_remaining - 1) out2 size
    | _ => .error .ioFailure

/-- The main loop of `decompress`: the group byte is refilled (consuming one
stream byte) when exhausted, bits are consumed most-significant first, bit 1
copies one literal byte, bit 0 reads a 2- or 3-byte back-reference.  The loop
runs while `decomp_data.len() < decomp_data.capacity()` with the capacity
pre-sized to the declared uncompressed size; `read_exact` at end of stream is
the I/O error.  `fuel` bounds the number of iterations: every iteration
consumes at least one input byte, so `input.length + 1` fuel is never
exhausted, and exhaustion returns the same error as reading past the end of
the input. -/
def yaz0Loop : Nat → List Nat → Nat → Nat → List Nat → Nat →
    Except Yaz0Error (List Nat)
  | 0, _, _, _, _, _ => .error .ioFailure
  | fuel + 1, input, group_value, group_remaining, out, size =>
    yaz0Body (yaz0Loop fuel) input group_value group_remaining out size

/-- `decompressed_size`: 16-byte header (`"Yaz0"` magic, big-endian u32
uncompressed size, 8 unused bytes). -/
def yaz0DecompressedSize (input : List Nat) : Except Yaz0Error Nat :=
  if 16 ≤ input.length then
    if input.take 4 = [0x59, 0x61, 0x7A, 0x30] then
      .ok (u32be (input.getD 4 0) (input.getD 5 0) (input.getD 6 0) (input.getD 7 0))
    else .error .incorrectMagic
  else .error .ioFailure

/-- `decompress`: parse the header, pre-size the output to the declared
uncompressed size, then run the token loop over the remaining stream. -/
def yaz0Decompress (input : List Nat) : Except Yaz0Error (List Nat) :=
  match yaz0DecompressedSize input with
  | .error e => .error e
  | .ok size => yaz0Loop ((input.drop 16).length + 1) (input.drop 16) 0 0 [] size

/-- The declared uncompressed size field of a Yaz0 stream (bytes 4..8,
big-endian). -/
def yaz0DeclaredSize (input : List Nat) : Nat :=
  u32be (input.getD 4 0) (input.getD 5 0) (input.getD 6 0) (input.getD 7 0)

/-- A Yaz0 stream declaring 5 output bytes whose body is one literal `0x41`
(`"A"`) followed by a short back-reference with lookback distance 1 and copy
length 4. -/
def c4Stream : List Nat :=
  [0x59, 0x61, 0x7A, 0x30, 0, 0, 0, 5, 0, 0, 0, 0, 0, 0, 0, 0,
   0x80, 0x41, 0x20, 0x00]

/-- C4: the claim says a back-reference copy behaves as a byte-at-a-time
append, so that after output `"A"` a copy with lookback 1 and length 4 yields
`"AAAAA"`.  The code instead extends the output with zeros and uses
`copy_within` (a `memmove`), so the overlapping source range reads the
freshly appended zeros: the same stream decompresses to `A A 0 0 0`. -/
theorem c4_overlapping_copy_is_memmove :
    yaz0Decompress c4Stream = .ok [0x41, 0x41, 0, 0, 0] ∧
      [0x41, 0x41, 0, 0, 0] ≠ [0x41, 0x41, 0x41, 0x41, 0x41] := by
  constructor
  · rfl
  · decide

/-- C5 counterexample: for the short-form token bytes `0x12 0x34` the claim's
decode (lookback = (high nibble << 8 | second byte) + 1 = 309, copy length =
low nibble + 2 = 4) does not match the code, which packs the copy count in
the high nibble: the code decodes copy length 3 and lookback 565. -/
theorem c5_counterexample :
    ¬((shortCopyDecode 0x12 0x34).1 = 0x12 % 16 + 2 ∧
      (shortCopyDecode 0x12 0x34).2 = 0x12 / 16 * 256 + 0x34 + 1) := by
  decide

/-- C5 (amended): every short-form back-reference token decodes to copy
length = high-nibble-of-first-byte + 2 and lookback distance =
(low-nibble-of-first-byte << 8 | second-byte) + 1. -/
theorem c5_short_copy_decode (b0 b1 : Nat) (h0 : b0 < 256) (h1 : b1 < 256) :
    shortCopyDecode b0 b1 = (b0 / 16 + 2, b0 % 16 * 256 + b1 + 1) := by
  simp only [shortCopyDecode, Prod.mk.injEq]
  omega

/-- Witness for the amended C5 at the concrete token `0x20 0x03`:
copy length 4, lookback distance 4. -/
theorem c5_short_copy_decode_witness : shortCopyDecode 0x20 0x03 = (4, 4) :=
  c5_short_copy_decode 0x20 0x03 (by decide) (by decide)

theorem copyStep_ok_length {out : List Nat} {size c l : Nat} {r : List Nat}
    (h : copyStep out size c l = .ok r) : r.length = out.length + c ∧ out.length + c ≤ size := by
  unfold copyStep at h
  split at h
  · simp at h
  · split at h
    · simp at h
    · simp only [Except.ok.injEq] at h
      subst h
      refine ⟨?_, by omega⟩
      simp [List.length_append, List.length_take, List.length_drop]
      omega

theorem yaz0Loop_ok_length :
    ∀ (fuel : Nat) (input : List Nat) (gv gr : Nat) (out : List Nat) (size : Nat),
      out.length ≤ size → ∀ res, yaz0Loop fuel input gv gr out size = .ok res →
        res.length = size := by
  intro fuel
  induction fuel with
  | zero =>
    intro input gv gr out size hle res h
    exact Except.noConfusion h
  | succ f ih =>
    intro input gv gr out size hle res h
    rw [yaz0Loop] at h
    unfold yaz0Body at h
    split at h
    · simp only [Except.ok.injEq] at h
      subst h
      omega
    · split at h
      · split at h
        · exact Except.noConfusion h
        · exact ih _ _ _ _ _ hle res h
      · split at h
        · split at h
          · exact Except.noConfusion h
          · refine ih _ _ _ _ _ ?_ res h
            simp only [List.length_append, List.length_singleton]
            omega
        · split at h
          · split at h
            · split at h
              · exact Except.noConfusion h
              · next hstep =>
                  refine ih _ _ _ _ _ ?_ res h
                  have h12 := copyStep_ok_length hstep
                  omega
            · split at h
              · exact Except.noConfusion h
              · next hstep =>
                  refine ih _ _ _ _ _ ?_ res h
                  have h12 := copyStep_ok_length hstep
                  omega
          · split at h
            · exact Except.noConfusion h
            · split at h
              · exact Except.noConfusion h
              · next hstep =>
                  refine ih _ _ _ _ _ ?_ res h
                  have h12 := copyStep_ok_length hstep
                  omega
          · exact Except.noConfusion h

theorem yaz0DecompressedSize_ok {input : List Nat} {size : Nat}
    (h : yaz0DecompressedSize input = .ok size) : size = yaz0DeclaredSize input := by
  unfold yaz0DecompressedSize at h
  split at h
  · split at h
    · simp only [Except.ok.injEq] at h
      exact h.symm
    · simp at h
  · simp at h

/-- C7: the decompression loop stops exactly when the output reaches the
declared uncompressed size (a successful result has exactly that length); a
back-reference that would copy past that size fails with the distinct
copy-past-end error, and one whose lookback distance exceeds the bytes
produced so far fails with the distinct copy-from-before-start error. -/
theorem c7_termination_and_errors :
    (∀ input res, yaz0Decompress input = .ok res →
        res.length = yaz0DeclaredSize input) ∧
    (∀ out size c l, size < out.length + c →
        copyStep out size c l = .error .copyingPastEnd) ∧
    (∀ out size c l, out.length + c ≤ size → out.length < l →
        copyStep out size c l = .error .copyingFromBeforeStart) := by
  refine ⟨?_, ?_, ?_⟩
  · intro input res h
    unfold yaz0Decompress at h
    split at h
    · simp at h
    · next size hsize =>
      rw [← yaz0DecompressedSize_ok hsize]
      exact yaz0Loop_ok_length _ _ 0 0 [] size (by simp) res h
  · intro out size c l hlt
    unfold copyStep
    rw [if_pos hlt]
  · intro out size c l hle hlt
    unfold copyStep
    rw [if_neg (by omega), if_pos hlt]

/-- A Yaz0 stream declaring 4 output bytes whose body is a full literal
group `0xFF` followed by the bytes `"ABCD"`. -/
def c7Stream : List Nat :=
  [0x59, 0x61, 0x7A, 0x30, 0, 0, 0, 4, 0, 0, 0, 0, 0, 0, 0, 0,
   0xFF, 65, 66, 67, 68]

/-- Witness for C7 at concrete inputs: the all-literal stream decompresses to
a buffer of exactly the declared length, an oversized copy on an empty output
is the copy-past-end error, and a lookback of 2 with one byte produced is the
copy-from-before-start error. -/
theorem c7_witness :
    ([65, 66, 67, 68] : List Nat).length = yaz0DeclaredSize c7Stream ∧
    copyStep [] 0 1 1 = .error .copyingPastEnd ∧
    copyStep [65] 5 4 2 = .error .copyingFromBeforeStart :=
  ⟨c7_termination_and_errors.1 c7Stream [65, 66, 67, 68] (by rfl),
   c7_termination_and_errors.2.1 [] 0 1 1 (by decide),
   c7_termination_and_errors.2.2 [65] 5 4 2 (by decide) (by decide)⟩

/-- C6: the claim says the long-form copy length is third byte + 18 exactly
for every third-byte value up to 255 with no 8-bit wrap.  The code computes
`copy_count() + 0x12` in `u8` arithmetic, so for third byte `0xEE` (238) the
length wraps to 0 (and the addition panics in debug builds) instead of 256. -/
theorem c6_long_copy_length_wraps :
    longCopyDecode 0 0 0xEE = (0, 1) ∧ (0 : Nat) ≠ 0xEE + 18 := by
  decide

/-! ## BYML shared types (byml/types.rs) -/

/-- The `DataType` tags of the BYML format. -/
inductive DataTypeM where
  | string
  | array
  | dictionary
  | stringTable
  | bool
  | i32
  | f32
  | u32
  | i64
  | u64
  | f64
  | null
deriving DecidableEq, Repr, Inhabited

/-- `DataType::from_u8` (via `num_derive::FromPrimitive`): the fixed
single-byte tag values of the format. -/
def DataTypeM.fromU8 (v : Nat) : Option DataTypeM :=
  match v with
  | 0xA0 => some .string
  | 0xC0 => some .array
  | 0xC1 => some .dictionary
  | 0xC2 => some .stringTable
  | 0xD0 => some .bool
  | 0xD1 => some .i32
  | 0xD2 => some .f32
  | 0xD3 => some .u32
  | 0xD4 => some .i64
  | 0xD5 => some .u64
  | 0xD6 => some .f64
  | 0xFF => some .null
  | _ => none

/-! ## BYML reader string table (byml/reader.rs, `StringTable`) -/

/-- The reader's `StringTable` view: the decoded offset index, the table's
base offset, and `string_data`, which the source sets to the whole input
buffer. -/
structure MStringTable where
  offsetTable : List Nat
  startOffset : Nat
  stringData : List Nat
deriving DecidableEq, Repr

/-- Result of `StringTable::read_string`.  `panicked` models the
`self.string_data.get(offset..).unwrap()` panic. -/
inductive StringReadRes where
  | ok : List Nat → StringReadRes
  | offsetEntryOutOfBounds
  | offsetOutsideOfStringData
  | unterminatedString
  | panicked
deriving DecidableEq, Repr

/-- `StringTable::read_string`: looks up `offset_table[index]`
(`OffsetEntryOutOfBounds` if the index is out of range), adds the table's
base offset with `checked_add` on 64-bit `usize`
(`OffsetOutsideOfStringData` on arithmetic overflow only), then evaluates
`string_data.get(offset..).unwrap()` — which panics whenever the computed
offset exceeds the buffer length — and finally scans for a null terminator
(`UnterminatedString` when none exists). -/
def read_string (t : MStringTable) (index : Nat) : StringReadRes :=
  match t.offsetTable.get? index with
  | none => .offsetEntryOutOfBounds
  | some off =>
    if off + t.startOffset < 2 ^ 64 then
      if off + t.startOffset ≤ t.stringData.length then
        if (t.stringData.drop (off + t.startOffset)).contains 0 then
          .ok ((t.stringData.drop (off + t.startOffset)).takeWhile (fun b => b != 0))
        else .unterminatedString
      else .panicked
    else .offsetOutsideOfStringData

/-- C9: the claim says all three failure cases of `read_string` produce
distinct typed errors and never panic.  An out-of-range index and a missing
terminator do produce typed errors, but a computed offset landing outside
the buffer (offset 100 into a 1-byte buffer here) hits
`string_data.get(offset..).unwrap()` and panics: the
`OffsetOutsideOfStringData` variant is only reachable through `usize`
overflow of `checked_add`. -/
theorem c9_read_string_oob_offset_panics :
    read_string ⟨[100], 0, [0]⟩ 0 = .panicked ∧
    read_string ⟨[100], 0, [0]⟩ 1 = .offsetEntryOutOfBounds ∧
    read_string ⟨[0], 0, [65]⟩ 0 = .unterminatedString := by
  decide

/-! ## BYML reader dictionary lookup (byml/reader.rs, `BymlReaderDict`) -/

/-- A decoded dictionary entry (`DictEntry`): 3-byte hash-key index, type
tag, 4-byte value slot. -/
structure MDictEntry where
  hashKeyIndex : Nat
  dataType : DataTypeM
  value : Nat
deriving DecidableEq, Repr, Inhabited

/-- Result of `get_entry_by_key_bytes`: `found value dataType` is
`Ok(Some((value, data_type)))`, `notFound` is `Ok(None)`, `keyError` is
`Err(HashKeyReadError)`, and `panicked` models a Rust panic. -/
inductive SearchRes where
  | found : Nat → DataTypeM → SearchRes
  | notFound
  | keyError
  | panicked
deriving DecidableEq, Repr

/-- One iteration of the binary-search loop of `get_entry_by_key_bytes`,
with `rec` the continuation (see `searchLoop`): `mid = (low + high) / 2`,
the candidate key is resolved through the hash-key table, and the query is
compared against it with byte-wise lexicographic ordering; `Less` moves
`high` to `mid - 1` via `checked_sub`, returning `None` when `mid = 0`;
`Equal` stops with the entry; `Greater` moves `low` to `mid + 1`. -/
def searchBody (rec : Nat → Nat → SearchRes) (entries : List MDictEntry)
    (tbl : MStringTable) (key : List Nat) (low high : Nat) : SearchRes :=
  if low ≤ high then
    match entries.get? ((low + high) / 2) with
    | none => .panicked
    | some entry =>
      match read_string tbl entry.hashKeyIndex with
      | .ok value =>
        match lexCompare key value with
        | .lt =>
          if (low + high) / 2 = 0 then .notFound
          else rec low ((low + high) / 2 - 1)
        | .eq => .found entry.value entry.dataType
        | .gt => rec ((low + high) / 2 + 1) high
      | _ => .keyError
  else .notFound

/-- The `while low <= high` loop of `get_entry_by_key_bytes`.  `fuel` bounds
the number of iterations: the interval `high + 1 - low` strictly shrinks
every iteration, so `entries.length + 1` fuel is never exhausted when the
loop starts on `[0, entries.length - 1]`. -/
def searchLoop : Nat → List MDictEntry → MStringTable → List Nat → Nat → Nat → SearchRes
  | 0, _, _, _, _, _ => .panicked
  | fuel + 1, entries, tbl, key, low, high =>
    searchBody (searchLoop fuel entries tbl key) entries tbl key low high

/-- `BymlReaderDict::get_entry_by_key_bytes`.  The code computes
`let mut high = self.entries.len() - 1;` in `usize`: on a dictionary with
zero entries this subtraction underflows — panicking directly in debug
builds, and in release builds wrapping to `usize::MAX` so that the first
`self.entries[mid]` index is out of bounds and panics.  Both are modelled as
`panicked`. -/
def get_entry_by_key_bytes (entries : List MDictEntry) (tbl : MStringTable)
    (key : List Nat) : SearchRes :=
  match entries.length with
  | 0 => .panicked
  | n + 1 => searchLoop (n + 2) entries tbl key 0 n

theorem map_ok_get {tbl : MStringTable} :
    ∀ (entries : List MDictEntry) (keys : List (List Nat)) (j : Nat) (e : MDictEntry),
      entries.map (fun e => read_string tbl e.hashKeyIndex) =
          keys.map StringReadRes.ok →
      entries.get? j = some e →
      ∃ k, keys.get? j = some k ∧ read_string tbl e.hashKeyIndex = .ok k := by
  intro entries
  induction entries with
  | nil => intro keys j e _ he; simp at he
  | cons a as ih =>
    intro keys j e hmap he
    cases keys with
    | nil => simp at hmap
    | cons k ks =>
      simp only [List.map_cons, List.cons.injEq] at hmap
      cases j with
      | zero =>
        simp only [List.get?_cons_zero, Option.some.injEq] at he
        subst he
        exact ⟨k, rfl, hmap.1⟩
      | succ j =>
        simp only [List.get?_cons_succ] at he ⊢
        exact ih ks j e hmap.2 he

theorem sorted_get_lt {keys : List (List Nat)}
    (hs : List.Pairwise (fun a b => lexCompare a b = .lt) keys) :
    ∀ i j ki kj, i < j → keys.get? i = some ki → keys.get? j = some kj →
      lexCompare ki kj = .lt := by
  intro i j ki kj hij hki hkj
  rw [List.get?_eq_some] at hki hkj
  obtain ⟨hi, rfl⟩ := hki
  obtain ⟨hj, rfl⟩ := hkj
  exact List.pairwise_iff_get.mp hs ⟨i, hi⟩ ⟨j, hj⟩ hij

theorem searchLoop_found {entries : List MDictEntry} {tbl : MStringTable}
    {keys : List (List Nat)} {key : List Nat}
    (hmap : entries.map (fun e => read_string tbl e.hashKeyIndex) =
      keys.map StringReadRes.ok)
    (hsorted : List.Pairwise (fun a b => lexCompare a b = .lt) keys) :
    ∀ fuel low high i e, high + 1 - low < fuel → high < entries.length →
      low ≤ i → i ≤ high → entries.get? i = some e → keys.get? i = some key →
      searchLoop fuel entries tbl key low high = .found e.value e.dataType := by
  intro fuel
  induction fuel with
  | zero => intro low high i e hfuel hhigh hli hih he hk; omega
  | succ f ih =>
    intro low high i e hfuel hhigh hli hih he hk
    have hlh : low ≤ high := le_trans hli hih
    have hmidlt : (low + high) / 2 < entries.length := by omega
    have hem : entries.get? ((low + high) / 2) =
        some (entries.get ⟨(low + high) / 2, hmidlt⟩) := List.get?_eq_get hmidlt
    obtain ⟨km, hkm, hrm⟩ := map_ok_get _ _ _ _ hmap hem
    rw [searchLoop]
    unfold searchBody
    rw [if_pos hlh]
    simp only [hem, hrm]
    cases hcmp : lexCompare key km with
    | lt =>
      have hne : i ≠ (low + high) / 2 := by
        intro heq
        rw [← heq, hk] at hkm
        cases hkm
        rw [lexCompare_self] at hcmp
        cases hcmp
      have hnlt : ¬ (low + high) / 2 < i := by
        intro hmi
        have hlt := sorted_get_lt hsorted _ _ _ _ hmi hkm hk
        have hgt := (lexCompare_gt_iff key km).mpr hlt
        rw [hcmp] at hgt
        cases hgt
      have himid : i < (low + high) / 2 := by omega
      have hz : (low + high) / 2 ≠ 0 := by omega
      simp only [hcmp, if_neg hz]
      exact ih low ((low + high) / 2 - 1) i e (by omega) (by omega) hli (by omega) he hk
    | eq =>
      have hkey_eq : key = km := (lexCompare_eq_iff _ _).mp hcmp
      have hmi : (low + high) / 2 = i := by
        rcases Nat.lt_trichotomy ((low + high) / 2) i with h | h | h
        · have hlt := sorted_get_lt hsorted _ _ _ _ h hkm hk
          rw [← hkey_eq, lexCompare_self] at hlt
          cases hlt
        · exact h
        · have hlt := sorted_get_lt hsorted _ _ _ _ h hk hkm
          rw [← hkey_eq, lexCompare_self] at hlt
          cases hlt
      obtain ⟨hi_lt, hgete⟩ := List.get?_eq_some.mp he
      have hfin : (⟨(low + high) / 2, hmidlt⟩ : Fin entries.length) = ⟨i, hi_lt⟩ :=
        Fin.ext hmi
      rw [hfin, hgete]
    | gt =>
      have hne : i ≠ (low + high) / 2 := by
        intro heq
        rw [← heq, hk] at hkm
        cases hkm
        rw [lexCompare_self] at hcmp
        cases hcmp
      have hnlt : ¬ i < (low + high) / 2 := by
        intro hmi
        have hlt := sorted_get_lt hsorted _ _ _ _ hmi hk hkm
        rw [hcmp] at hlt
        cases hlt
      have hmidi : (low + high) / 2 < i := by omega
      simp only [hcmp]
      exact ih ((low + high) / 2 + 1) high i e (by omega) hhigh (by omega) hih he hk

theorem searchLoop_notFound {entries : List MDictEntry} {tbl : MStringTable}
    {keys : List (List Nat)} {key : List Nat}
    (hmap : entries.map (fun e => read_string tbl e.hashKeyIndex) =
      keys.map StringReadRes.ok)
    (habs : key ∉ keys) :
    ∀ fuel low high, high + 1 - low < fuel → high < entries.length →
      searchLoop fuel entries tbl key low high = .notFound := by
  intro fuel
  induction fuel with
  | zero => intro low high hfuel hhigh; omega
  | succ f ih =>
    intro low high hfuel hhigh
    rw [searchLoop]
    unfold searchBody
    by_cases hlh : low ≤ high
    · rw [if_pos hlh]
      have hmidlt : (low + high) / 2 < entries.length := by omega
      have hem : entries.get? ((low + high) / 2) =
          some (entries.get ⟨(low + high) / 2, hmidlt⟩) := List.get?_eq_get hmidlt
      obtain ⟨km, hkm, hrm⟩ := map_ok_get _ _ _ _ hmap hem
      simp only [hem, hrm]
      cases hcmp : lexCompare key km with
      | lt =>
        by_cases hz : (low + high) / 2 = 0
        · simp only [hcmp, if_pos hz]
        · simp only [hcmp, if_neg hz]
          exact ih low ((low + high) / 2 - 1) (by omega) (by omega)
      | eq =>
        exfalso
        apply habs
        have hkey_eq : key = km := (lexCompare_eq_iff _ _).mp hcmp
        rw [hkey_eq]
        exact List.get?_mem hkm
      | gt =>
        simp only [hcmp]
        exact ih ((low + high) / 2 + 1) high (by omega) hhigh
    · rw [if_neg hlh]

/-- C2 counterexample: the claim quantifies over every dictionary reader
whose entries are sorted and whose keys resolve, which includes the empty
dictionary (both conditions hold vacuously); there the claim requires
`None` for any absent key, but `high = entries.len() - 1` in `usize`
underflows and the code panics instead. -/
theorem c2_counterexample :
    get_entry_by_key_bytes [] ⟨[], 0, []⟩ [] ≠ .notFound := by
  decide

/-- C2 (amended): for every dictionary reader with at least one entry whose
entries are sorted by the byte value of their resolved key strings and whose
key strings all resolve, `get_entry_by_key_bytes` (the binary search backing
`get_element_by_key_bytes`) returns the stored entry for every key present
and `None` for every key absent. -/
theorem c2_binary_search (entries : List MDictEntry) (tbl : MStringTable)
    (keys : List (List Nat)) (key : List Nat)
    (hne : entries ≠ [])
    (hmap : entries.map (fun e => read_string tbl e.hashKeyIndex) =
      keys.map StringReadRes.ok)
    (hsorted : List.Pairwise (fun a b => lexCompare a b = .lt) keys) :
    (∀ i e, entries.get? i = some e → keys.get? i = some key →
        get_entry_by_key_bytes entries tbl key = .found e.value e.dataType) ∧
    (key ∉ keys → get_entry_by_key_bytes entries tbl key = .notFound) := by
  cases hlen : entries.length with
  | zero => exact absurd (List.length_eq_zero.mp hlen) hne
  | succ n =>
    constructor
    · intro i e he hk
      have hi : i < entries.length := (List.get?_eq_some.mp he).1
      unfold get_entry_by_key_bytes
      rw [hlen]
      exact searchLoop_found hmap hsorted (n + 2) 0 n i e (by omega) (by omega)
        (by omega) (by omega) he hk
    · intro habs
      unfold get_entry_by_key_bytes
      rw [hlen]
      exact searchLoop_notFound hmap habs (n + 2) 0 n (by omega) (by omega)

/-- Witness for the amended C2 on a one-entry dictionary whose single key
resolves to `"k"` (byte 107): the present key is found with its stored value
and type, and an absent key returns `None`. -/
theorem c2_binary_search_witness :
    get_entry_by_key_bytes [⟨0, .u32, 53⟩] ⟨[4], 0, [0, 0, 0, 0, 107, 0]⟩ [107]
        = .found 53 .u32 ∧
    get_entry_by_key_bytes [⟨0, .u32, 53⟩] ⟨[4], 0, [0, 0, 0, 0, 107, 0]⟩ [109]
        = .notFound := by
  constructor
  · exact (c2_binary_search [⟨0, .u32, 53⟩] ⟨[4], 0, [0, 0, 0, 0, 107, 0]⟩
      [[107]] [107] (by decide) (by decide) (by decide)).1 0 ⟨0, .u32, 53⟩
      (by decide) (by decide)
  · exact (c2_binary_search [⟨0, .u32, 53⟩] ⟨[4], 0, [0, 0, 0, 0, 107, 0]⟩
      [[107]] [109] (by decide) (by decide) (by decide)).2 (by decide)

/-- C3: the claim says the search bounds are special-cased before any
arithmetic so that `high = count - 1` never underflows and an empty
dictionary returns `None` without panicking.  The code has no such special
case: on a dictionary with zero entries the `usize` subtraction underflows
(debug builds panic on the subtraction; release builds wrap to `usize::MAX`
and panic on the immediately following out-of-bounds `self.entries[mid]`). -/
theorem c3_empty_dict_lookup_panics :
    get_entry_by_key_bytes [] ⟨[], 0, []⟩ [97] = .panicked := by
  decide

/-! ## BYML reader open and element access (byml/reader.rs) -/

/-- The 24-bit packed count of a `ContainerHeader` / the 3-byte
`hash_key_index` of a `DictEntry`: `from_be_bytes([0,a,b,c])` or
`from_le_bytes([a,b,c,0])`. -/
def entries24 (o : ByteOrd) (b1 b2 b3 : Nat) : Nat :=
  match o with
  | .be => (b1 * 256 + b2) * 256 + b3
  | .le => b1 + 256 * b2 + 65536 * b3

/-- The three bytes of a 24-bit packed count in the given byte order
(`ContainerHeader::new` / `DictEntry::new`). -/
def entries24Bytes (o : ByteOrd) (n : Nat) : List Nat :=
  match o with
  | .be => [n / 65536 % 256, n / 256 % 256, n % 256]
  | .le => [n % 256, n / 256 % 256, n / 65536 % 256]

/-- Rust's `data.get(start..stop)` on a byte slice: `Some` of the sub-slice
when `start ≤ stop ≤ data.len()`, `None` otherwise. -/
def sliceGet (data : List Nat) (start stop : Nat) : Option (List Nat) :=
  if start ≤ stop ∧ stop ≤ data.length then
    some ((data.drop start).take (stop - start))
  else none

/-- zerocopy's `<[U32<O>]>::ref_from_bytes_with_elems`: consecutive 4-byte
groups decoded in the document's byte order. -/
def u32List (o : ByteOrd) : List Nat → List Nat
  | b0 :: b1 :: b2 :: b3 :: rest => u32At o b0 b1 b2 b3 :: u32List o rest
  | _ => []

/-- A u64 from the first eight bytes of a list in the given byte order
(zerocopy `U64<O>`/`I64<O>`/`F64<O>` reads). -/
def u64FromBytes (o : ByteOrd) (bs : List Nat) : Nat :=
  match o with
  | .le => bs.getD 0 0 + 256 * bs.getD 1 0 + 2 ^ 16 * bs.getD 2 0 +
      2 ^ 24 * bs.getD 3 0 + 2 ^ 32 * bs.getD 4 0 + 2 ^ 40 * bs.getD 5 0 +
      2 ^ 48 * bs.getD 6 0 + 2 ^ 56 * bs.getD 7 0
  | .be => bs.getD 7 0 + 256 * bs.getD 6 0 + 2 ^ 16 * bs.getD 5 0 +
      2 ^ 24 * bs.getD 4 0 + 2 ^ 32 * bs.getD 3 0 + 2 ^ 40 * bs.getD 2 0 +
      2 ^ 48 * bs.getD 1 0 + 2 ^ 56 * bs.getD 0 0

/-- `StringTableError` (payloads are diagnostic only). -/
inductive StringTableErrorM where
  | headerOutOfBounds
  | addressTableOutOfBounds
  | stringDataEndOutOfBounds
deriving DecidableEq, Repr

/-- `StringTable::get_string_table`: bounds-check the 4-byte container
header at `offset`, decode the 24-bit entry count, bounds-check and decode
the `entries`-entry u32 offset index.  The header's type tag byte is never
validated.  `string_data` is set to the whole buffer and `start_offset` to
the table's offset, exactly as in the source. -/
def get_string_table (o : ByteOrd) (data : List Nat) (offset : Nat) :
    Except StringTableErrorM MStringTable :=
  match sliceGet data offset (offset + 4) with
  | none => .error .headerOutOfBounds
  | some hdr =>
    let entries := entries24 o (hdr.getD 1 0) (hdr.getD 2 0) (hdr.getD 3 0)
    match sliceGet data (offset + 4) (offset + 4 + entries * 4) with
    | none => .error .addressTableOutOfBounds
    | some tableBytes => .ok ⟨u32List o tableBytes, offset, data⟩

/-- `ContainerError` (payloads are diagnostic only). -/
inductive ContainerErrorM where
  | incorrectDataType
  | dataTypesOutOfBounds
  | invalidElementDataType
  | valuesOutOfBounds
  | noHashKeyTable
deriving DecidableEq, Repr

/-- `BymlReaderArray::get_components`: bounds-check and validate the
`entries` type-tag bytes starting at `start + 4`, then bounds-check the
4-byte value slots starting at `align_up(start + 4 + entries, 4)`. -/
def array_get_components (o : ByteOrd) (data : List Nat) (entries start : Nat) :
    Except ContainerErrorM (List DataTypeM × List Nat) :=
  match sliceGet data (start + 4) (start + 4 + entries) with
  | none => .error .dataTypesOutOfBounds
  | some typeBytes =>
    if typeBytes.all (fun b => (DataTypeM.fromU8 b).isSome) then
      match sliceGet data (align_up (start + 4 + entries) 4)
          (align_up (start + 4 + entries) 4 + entries * 4) with
      | none => .error .valuesOutOfBounds
      | some valueBytes => .ok (typeBytes.filterMap DataTypeM.fromU8, u32List o valueBytes)
    else .error .invalidElementDataType

/-- The raw 8-byte `TryDictEntry` records of a dictionary body:
3-byte hash-key index, type tag byte, 4-byte value slot. -/
def rawDictEntries (o : ByteOrd) : List Nat → List (Nat × Nat × Nat)
  | k0 :: k1 :: k2 :: t :: v0 :: v1 :: v2 :: v3 :: rest =>
      (entries24 o k0 k1 k2, t, u32At o v0 v1 v2 v3) :: rawDictEntries o rest
  | _ => []

/-- `BymlReaderDict::get_components`: requires a hash-key table, bounds-checks
the `entries * 8` bytes of dictionary entries at `start + 4` (reusing the
`DataTypesOutOfBounds` variant, as the source does), and validates every
entry's type tag. -/
def dict_get_components (o : ByteOrd) (data : List Nat) (entries start : Nat)
    (hashKeyTable : Option MStringTable) :
    Except ContainerErrorM (List MDictEntry × MStringTable) :=
  match hashKeyTable with
  | none => .error .noHashKeyTable
  | some tbl =>
    match sliceGet data (start + 4) (start + 4 + entries * 8) with
    | none => .error .dataTypesOutOfBounds
    | some entryBytes =>
      let raw := rawDictEntries o entryBytes
      if raw.all (fun r => (DataTypeM.fromU8 r.2.1).isSome) then
        .ok (raw.filterMap
          (fun r => (DataTypeM.fromU8 r.2.1).map (fun dt => ⟨r.1, dt, r.2.2⟩)), tbl)
      else .error .invalidElementDataType

/-- `OpenError` (payloads are diagnostic only; `unsupportedVersion` is
declared by the source together with `MAXIMUM_SUPPORTED_VERSION` but never
produced by `BymlReader::new`). -/
inductive OpenErrorM where
  | endiannessMismatch
  | unsupportedVersion
  | notEnoughDataForHeader
  | rootNodeOutOfBounds
  | rootNodeMisaligned
  | stringTableOutOfBounds
  | stringTableMisaligned
  | stringTable : StringTableErrorM → OpenErrorM
  | hashKeyTableOutOfBounds
  | hashKeyTableMisaligned
  | hashKeyTable : StringTableErrorM → OpenErrorM
  | invalidDataType
  | nonContainerType
  | container : ContainerErrorM → OpenErrorM
deriving DecidableEq, Repr

/-- `byml::MAXIMUM_SUPPORTED_VERSION`. -/
def MAXIMUM_SUPPORTED_VERSION : Nat := 3

/-- The reader's array view (`BymlReaderArray`). -/
structure MArrayReader where
  data : List Nat
  stringTable : Option MStringTable
  hashKeyTable : Option MStringTable
  dataTypes : List DataTypeM
  values : List Nat
deriving DecidableEq, Repr

/-- The reader's dictionary view (`BymlReaderDict`). -/
structure MDictReader where
  data : List Nat
  stringTable : Option MStringTable
  hashKeyTable : MStringTable
  entries : List MDictEntry
deriving DecidableEq, Repr

/-- `BymlReader`: the decoded document root. -/
inductive MBymlReader where
  | array : MArrayReader → MBymlReader
  | dictionary : MDictReader → MBymlReader
  | empty
deriving DecidableEq, Repr

/-- The magic check of `BymlReader::new`: `b"YB"` for little endian,
`b"BY"` for big endian. -/
def magicMatches (o : ByteOrd) (m0 m1 : Nat) : Bool :=
  match o with
  | .le => m0 == 0x59 && m1 == 0x42
  | .be => m0 == 0x42 && m1 == 0x59

/-- The string-table resolution of `BymlReader::new`: offset zero means the
table is absent, a misaligned offset is the given distinct error, otherwise
the table is parsed. -/
def resolve_table (o : ByteOrd) (data : List Nat) (offset : Nat)
    (misaligned : OpenErrorM) : Except OpenErrorM (Option MStringTable) :=
  if offset = 0 then .ok none
  else if align_up offset 4 = offset then
    match get_string_table o data offset with
    | .error e => .error (.stringTable e)
    | .ok t => .ok (some t)
  else .error misaligned

/-- The version field of the 16-byte BYML header (bytes 2..4, a `U16<O>`). -/
def header_version (o : ByteOrd) (data : List Nat) : Nat :=
  match o with
  | .le => data.getD 2 0 + 256 * data.getD 3 0
  | .be => data.getD 2 0 * 256 + data.getD 3 0

/-- `BymlReader::new`: checks the header size and the magic-vs-endianness
consistency, resolves the two optional string tables (absent iff offset
zero, misalignment is an error), then resolves the root node (offset zero
means the empty document) which must decode to a container type.  The
header's version field is read as part of the header struct but never
compared against `MAXIMUM_SUPPORTED_VERSION`. -/
def byml_reader_new (o : ByteOrd) (data : List Nat) :
    Except OpenErrorM MBymlReader :=
  if data.length < 16 then .error .notEnoughDataForHeader
  else if ¬ magicMatches o (data.getD 0 0) (data.getD 1 0) then
    .error .endiannessMismatch
  else
    match resolve_table o data
        (u32At o (data.getD 8 0) (data.getD 9 0) (data.getD 10 0) (data.getD 11 0))
        .stringTableMisaligned with
    | .error e => .error e
    | .ok string_table =>
      match resolve_table o data
          (u32At o (data.getD 4 0) (data.getD 5 0) (data.getD 6 0) (data.getD 7 0))
          .hashKeyTableMisaligned with
      | .error e => .error e
      | .ok hash_key_table =>
        let root := u32At o (data.getD 12 0) (data.getD 13 0) (data.getD 14 0)
          (data.getD 15 0)
        if root = 0 then .ok .empty
        else if ¬ (align_up root 4 = root) then .error .rootNodeMisaligned
        else
          match sliceGet data root (root + 4) with
          | none => .error .rootNodeOutOfBounds
          | some hdr =>
            match DataTypeM.fromU8 (hdr.getD 0 0) with
            | none => .error .invalidDataType
            | some .array =>
              match array_get_components o data
                  (entries24 o (hdr.getD 1 0) (hdr.getD 2 0) (hdr.getD 3 0)) root with
              | .error e => .error (.container e)
              | .ok (dts, vals) =>
                .ok (.array ⟨data, string_table, hash_key_table, dts, vals⟩)
            | some .dictionary =>
              match dict_get_components o data
                  (entries24 o (hdr.getD 1 0) (hdr.getD 2 0) (hdr.getD 3 0)) root
                  hash_key_table with
              | .error e => .error (.container e)
              | .ok (entries, tbl) =>
                .ok (.dictionary ⟨data, string_table, tbl, entries⟩)
            | some _ => .error .nonContainerType

/-- A 16-byte little-endian BYML buffer with magic `"YB"`, version field 4,
and all three offsets zero (an empty document). -/
def c8Buffer : List Nat :=
  [0x59, 0x42, 4, 0, 0, 0, 0, 0, 0, 0, 0, 0, 0, 0, 0, 0]

/-- C8: the claim says a header version above 3 makes `BymlReader::new` fail
with the unsupported-version error.  The source declares
`MAXIMUM_SUPPORTED_VERSION = 3` and the `UnsupportedVersion` error variant
but `new` never reads the version field: this buffer with version 4 opens
successfully as an empty document. -/
theorem c8_version_not_checked :
    MAXIMUM_SUPPORTED_VERSION < header_version .le c8Buffer ∧
    byml_reader_new .le c8Buffer = .ok .empty :=
  ⟨by decide, rfl⟩


/-- `ElementReadError` (payloads are diagnostic only). -/
inductive ElementReadErrorM where
  | stringReadError
  | noStringTable
  | noHashKeyTable
  | valueOutOfBounds
  | pointerOutOfBounds
  | invalidDataType
  | unexpectedDataType
  | unexpectedStringTable
  | container : ContainerErrorM → ElementReadErrorM
  | hashKeyReadError
  | nonUtf8String
deriving DecidableEq, Repr

/-- `BymlReaderNode`: a resolved element.  32-bit scalars carry the raw bit
pattern of the 4-byte value slot (`i32`/`f32` are `from_ne_bytes` casts of
it in the source), 64-bit scalars the raw pattern of the 8-byte long value. -/
inductive MNode where
  | array : MArrayReader → MNode
  | dictionary : MDictReader → MNode
  | bool : Bool → MNode
  | i32 : Nat → MNode
  | f32 : Nat → MNode
  | u32 : Nat → MNode
  | i64 : Nat → MNode
  | u64 : Nat → MNode
  | f64 : Nat → MNode
  | string : List Nat → MNode
  | null
deriving DecidableEq, Repr

/-- Result of `BymlReaderArray::get_element`: `Ok(Some(..))`, `Ok(None)`
(index past the element count), `Err(..)`, or a Rust panic. -/
inductive ElemRes where
  | ok : Option MNode → ElemRes
  | err : ElementReadErrorM → ElemRes
  | panicked
deriving DecidableEq, Repr

/-- `BymlReaderArray::get_element`: an index past the type list is `None`;
the value slot is fetched with `.unwrap()` (a panic if the slots list is
shorter, which cannot happen for components produced by `get_components`);
the slot is then decoded by the element's type tag, bounds-checking every
dereference (nested container header, 8-byte long value) and resolving
strings through the value string table. -/
def array_get_element (o : ByteOrd) (r : MArrayReader) (index : Nat) : ElemRes :=
  match r.dataTypes.get? index with
  | none => .ok none
  | some dt =>
    match r.values.get? index with
    | none => .panicked
    | some value =>
      match dt with
      | .string =>
        match r.stringTable with
        | none => .err .noStringTable
        | some st =>
          match read_string st value with
          | .ok s => .ok (some (.string s))
          | .panicked => .panicked
          | _ => .err .stringReadError
      | .array =>
        match sliceGet r.data value (value + 4) with
        | none => .err .valueOutOfBounds
        | some hdr =>
          match array_get_components o r.data
              (entries24 o (hdr.getD 1 0) (hdr.getD 2 0) (hdr.getD 3 0)) value with
          | .error e => .err (.container e)
          | .ok (dts, vals) =>
            .ok (some (.array ⟨r.data, r.stringTable, r.hashKeyTable, dts, vals⟩))
      | .dictionary =>
        match sliceGet r.data value (value + 4) with
        | none => .err .valueOutOfBounds
        | some hdr =>
          match dict_get_components o r.data
              (entries24 o (hdr.getD 1 0) (hdr.getD 2 0) (hdr.getD 3 0)) value
              r.hashKeyTable with
          | .error e => .err (.container e)
          | .ok (entries, tbl) =>
            .ok (some (.dictionary ⟨r.data, r.stringTable, tbl, entries⟩))
      | .stringTable => .err .unexpectedStringTable
      | .bool => .ok (some (.bool (decide (0 < value))))
      | .i32 => .ok (some (.i32 value))
      | .f32 => .ok (some (.f32 value))
      | .u32 => .ok (some (.u32 value))
      | .i64 =>
        match sliceGet r.data value (value + 8) with
        | none => .err .valueOutOfBounds
        | some bs => .ok (some (.i64 (u64FromBytes o bs)))
      | .u64 =>
        match sliceGet r.data value (value + 8) with
        | none => .err .valueOutOfBounds
        | some bs => .ok (some (.u64 (u64FromBytes o bs)))
      | .f64 =>
        match sliceGet r.data value (value + 8) with
        | none => .err .valueOutOfBounds
        | some bs => .ok (some (.f64 (u64FromBytes o bs)))
      | .null => .ok (some .null)

/-- The `values()` iterator of `BymlReaderArray`: every element in index
order. -/
def read_elements (o : ByteOrd) (r : MArrayReader) : List ElemRes :=
  (List.range r.dataTypes.length).map (fun i => array_get_element o r i)

/-! ## BYML writer (byml/writer.rs)

The writer tree: an owned array node is a list of typed nodes, an owned
dictionary node is a key to node mapping kept sorted by key bytes
(`BTreeMap<CString, _>`).  32-bit scalars carry the raw bit pattern of the
stored 4-byte slot (`i32::cast_unsigned` / `OrderedFloat<f32>` bits), 64-bit
scalars the raw 8-byte pattern; strings carry their byte content without the
terminating nul. -/

/-- `BymlWriterNode`. -/
inductive WNode where
  | array : List WNode → WNode
  | dictionary : List (List Nat × WNode) → WNode
  | bool : Bool → WNode
  | i32 : Nat → WNode
  | f32 : Nat → WNode
  | u32 : Nat → WNode
  | i64 : Nat → WNode
  | u64 : Nat → WNode
  | f64 : Nat → WNode
  | string : List Nat → WNode
  | null

/-- `Container`: the root of a writer sub-tree (array or dictionary). -/
inductive WContainer where
  | array : List WNode → WContainer
  | dictionary : List (List Nat × WNode) → WContainer

mutual

/-- Structural (content) equality of writer nodes, as the derived
`PartialEq`/`Hash` used for container and string deduplication. -/
def wnodeBEq : WNode → WNode → Bool
  | .array a, .array b => wlistBEq a b
  | .dictionary a, .dictionary b => wpairsBEq a b
  | .bool a, .bool b => a == b
  | .i32 a, .i32 b => a == b
  | .f32 a, .f32 b => a == b
  | .u32 a, .u32 b => a == b
  | .i64 a, .i64 b => a == b
  | .u64 a, .u64 b => a == b
  | .f64 a, .f64 b => a == b
  | .string a, .string b => a == b
  | .null, .null => true
  | _, _ => false

def wlistBEq : List WNode → List WNode → Bool
  | [], [] => true
  | a :: as, b :: bs => wnodeBEq a b && wlistBEq as bs
  | _, _ => false

def wpairsBEq : List (List Nat × WNode) → List (List Nat × WNode) → Bool
  | [], [] => true
  | (k1, v1) :: as, (k2, v2) :: bs => k1 == k2 && wnodeBEq v1 v2 && wpairsBEq as bs
  | _, _ => false

end

/-- Structural equality of containers. -/
def wcontainerBEq : WContainer → WContainer → Bool
  | .array a, .array b => wlistBEq a b
  | .dictionary a, .dictionary b => wpairsBEq a b
  | _, _ => false

instance : BEq WNode := ⟨wnodeBEq⟩

instance : BEq WContainer := ⟨wcontainerBEq⟩

mutual

/-- A syntactic size of writer nodes, used only to bound the iteration count
of the container-ingest loop. -/
def wnodeSize : WNode → Nat
  | .array a => 1 + wlistSize a
  | .dictionary a => 1 + wpairsSize a
  | _ => 1

def wlistSize : List WNode → Nat
  | [] => 1
  | a :: as => 1 + wnodeSize a + wlistSize as

def wpairsSize : List (List Nat × WNode) → Nat
  | [] => 1
  | (_, v) :: as => 1 + wnodeSize v + wpairsSize as

end

/-- The size of a container. -/
def wcontainerSize : WContainer → Nat
  | .array a => 1 + wlistSize a
  | .dictionary a => 1 + wpairsSize a

/-- `WriteError`: the writer fails only with arithmetic overflow or an I/O
failure of the sink. -/
inductive WriteErrorM where
  | overflowed
  | ioError
deriving DecidableEq, Repr

/-- `Version`. -/
inductive WVersion where
  | v2
  | v3
deriving DecidableEq, Repr

/-- The version number written into the header. -/
def versionNat : WVersion → Nat
  | .v2 => 2
  | .v3 => 3

/-- `CString::new`: fails (the builder methods `.expect(..)`, i.e. panic)
exactly when the argument contains a nul byte. -/
def cstring_new (s : List Nat) : Option (List Nat) :=
  if 0 ∈ s then none else some s

/-- `BymlWriterArray::push_string`: `none` models the panic of the
`.expect("failed to convert value to cstring")`. -/
def push_string (arr : List WNode) (value : List Nat) : Option (List WNode) :=
  (cstring_new value).map (fun c => arr ++ [WNode.string c])

/-- `BTreeMap::insert` keyed by `CString` byte order: keeps the entry list
sorted by key bytes, replacing an existing key. -/
def dict_insert : List (List Nat × WNode) → List Nat → WNode → List (List Nat × WNode)
  | [], k, v => [(k, v)]
  | (k0, v0) :: rest, k, v =>
    match lexCompare k k0 with
    | .lt => (k, v) :: (k0, v0) :: rest
    | .eq => (k, v) :: rest
    | .gt => (k0, v0) :: dict_insert rest k v

/-- `BymlWriterDict::insert_string`: both the key and the value are
converted with `CString::new` and `.expect(..)`. -/
def insert_string (d : List (List Nat × WNode)) (key value : List Nat) :
    Option (List (List Nat × WNode)) :=
  match cstring_new key, cstring_new value with
  | some k, some v => some (dict_insert d k (.string v))
  | _, _ => none

/-- `BymlWriterDict::insert_null`. -/
def insert_null (d : List (List Nat × WNode)) (key : List Nat) :
    Option (List (List Nat × WNode)) :=
  (cstring_new key).map (fun k => dict_insert d k .null)

/-- The keyed `insert_*` operations generated by `dict_push_impl!`
(`insert_array`, `insert_dict`, `insert_bool`, `insert_i32`, `insert_u32`,
`insert_f32`, `insert_i64`, `insert_u64`, `insert_f64`): each converts the
key with `CString::new(key).expect(..)` and stores the given node. -/
def dict_insert_node (d : List (List Nat × WNode)) (key : List Nat) (node : WNode) :
    Option (List (List Nat × WNode)) :=
  (cstring_new key).map (fun k => dict_insert d k node)

/-- The type tag byte of a writer node (`BymlWriterNode::data_type`). -/
def wnode_data_type : WNode → Nat
  | .array _ => 0xC0
  | .dictionary _ => 0xC1
  | .bool _ => 0xD0
  | .i32 _ => 0xD1
  | .f32 _ => 0xD2
  | .u32 _ => 0xD3
  | .i64 _ => 0xD4
  | .u64 _ => 0xD5
  | .f64 _ => 0xD6
  | .string _ => 0xA0
  | .null => 0xFF

/-- A direct child node viewed as a container, when it is one. -/
def nodeAsContainer : WNode → Option WContainer
  | .array es => some (.array es)
  | .dictionary ps => some (.dictionary ps)
  | _ => none

/-- The direct container children of a container (the `filter_map` of
`BymlWriter::new`). -/
def containerChildren : WContainer → List WContainer
  | .array es => es.filterMap nodeAsContainer
  | .dictionary ps => ps.filterMap (fun p => nodeAsContainer p.2)

/-- `HashSet::insert` modelled on a duplicate-free list, keeping first
occurrence.  The `HashSet` iteration order of the source is unspecified;
this list fixes one admissible order, which the source uses consistently
for both the layout and the emission pass. -/
def insertSetC (l : List WContainer) (c : WContainer) : List WContainer :=
  if l.contains c then l else l ++ [c]

/-- The stack-driven container-ingest loop of `BymlWriter::new`: pop a
container, insert it into the set, push its direct container children.
`fuel` bounds the iterations: each pop removes a container whose children
have strictly smaller total size, so `sizeOf` the root is always enough. -/
def collect_loop : Nat → List WContainer → List WContainer → List WContainer
  | 0, _, acc => acc
  | fuel + 1, stack, acc =>
    match stack with
    | [] => acc
    | c :: rest => collect_loop fuel (containerChildren c ++ rest) (insertSetC acc c)

/-- The deduplicated container set of `BymlWriter::new`. -/
def collect (c : WContainer) : List WContainer :=
  collect_loop (wcontainerSize c + 1) [c] []

/-- `inline_size` of a container: header plus aligned type/value regions for
arrays, header plus aligned 8-byte entries for dictionaries; `None` is the
overflow of the final `u32` conversion. -/
def winline_size : WContainer → Option Nat
  | .array es =>
    if 4 + align_up es.length 4 + align_up (es.length * 4) 4 < 2 ^ 32 then
      some (4 + align_up es.length 4 + align_up (es.length * 4) 4)
    else none
  | .dictionary ps =>
    if 4 + align_up (ps.length * 8) 4 < 2 ^ 32 then
      some (4 + align_up (ps.length * 8) 4)
    else none

/-- The `(Option key, value)` element sequence of a container, as iterated
by the collection pass. -/
def elemsOf : WContainer → List (Option (List Nat) × WNode)
  | .array es => es.map (fun e => (none, e))
  | .dictionary ps => ps.map (fun p => (some p.1, p.2))

/-- `HashSet<&CString>::insert` modelled on a duplicate-free list. -/
def insertSetS (l : List (List Nat)) (s : List Nat) : List (List Nat) :=
  if l.contains s then l else l ++ [s]

/-- The per-element part of the collection pass: record dictionary keys,
record string values, and grow `data_size` by 8 (checked) for each 64-bit
scalar. -/
def scanElems : List (Option (List Nat) × WNode) → Nat → List (List Nat) →
    List (List Nat) → Except WriteErrorM (Nat × List (List Nat) × List (List Nat))
  | [], dsize, strs, keys => .ok (dsize, strs, keys)
  | (okey, v) :: rest, dsize, strs, keys =>
    let keys2 := match okey with
      | some k => insertSetS keys k
      | none => keys
    match v with
    | .string s => scanElems rest dsize (insertSetS strs s) keys2
    | .i64 _ =>
      if dsize + 8 < 2 ^ 32 then scanElems rest (dsize + 8) strs keys2
      else .error .overflowed
    | .u64 _ =>
      if dsize + 8 < 2 ^ 32 then scanElems rest (dsize + 8) strs keys2
      else .error .overflowed
    | .f64 _ =>
      if dsize + 8 < 2 ^ 32 then scanElems rest (dsize + 8) strs keys2
      else .error .overflowed
    | _ => scanElems rest dsize strs keys2

/-- The collection pass of `write` (`traverse_containers` closure): assign
each container its cumulative aligned offset in the node region, accumulate
`data_size`, and collect the distinct key and value strings. -/
def pass1 : List WContainer → List (WContainer × Nat) → Nat → Nat →
    List (List Nat) → List (List Nat) →
    Except WriteErrorM (List (WContainer × Nat) × Nat × Nat × List (List Nat) × List (List Nat))
  | [], cmap, coff, dsize, strs, keys => .ok (cmap, coff, dsize, strs, keys)
  | c :: rest, cmap, coff, dsize, strs, keys =>
    match winline_size c with
    | none => .error .overflowed
    | some sz =>
      if coff + align_up sz 4 < 2 ^ 32 then
        if dsize + align_up sz 4 < 2 ^ 32 then
          match scanElems (elemsOf c) (dsize + align_up sz 4) strs keys with
          | .error e => .error e
          | .ok (dsize2, strs2, keys2) =>
            pass1 rest (cmap ++ [(c, coff)]) (coff + align_up sz 4) dsize2 strs2 keys2
        else .error .overflowed
      else .error .overflowed

/-- Sum of `as_bytes_with_nul().len()` over a string set. -/
def sumLen (l : List (List Nat)) : Nat := (l.map (fun s => s.length + 1)).sum

/-- `calc_table_total`: header + aligned `(count + 1)`-entry u32 index +
string bytes, aligned to 4; the chain of `checked_add`/`checked_mul`/
`try_into` collapses to these `u32` range guards. -/
def calc_table_total (n table_len : Nat) : Except WriteErrorM Nat :=
  if n < 2 ^ 32 then
    if (n + 1) * 4 < 2 ^ 32 then
      if 4 + align_up ((n + 1) * 4) 4 + table_len < 2 ^ 32 then
        .ok (align_up (4 + align_up ((n + 1) * 4) 4 + table_len) 4)
      else .error .overflowed
    else .error .overflowed
  else .error .overflowed

/-- A random-access write into the `Cursor<Vec<u8>>` sink: writing past the
current end first zero-fills the gap. -/
def writeBytesAt (buf : List Nat) (pos : Nat) (bytes : List Nat) : List Nat :=
  let buf2 := if buf.length < pos then buf ++ List.replicate (pos - buf.length) 0 else buf
  buf2.take pos ++ bytes ++ buf2.drop (pos + bytes.length)

/-- `Vec::sort` on `CString`s: insertion sort by byte-lexicographic order
(nul-terminated comparison agrees with content comparison). -/
def insertSorted (x : List Nat) : List (List Nat) → List (List Nat)
  | [] => [x]
  | y :: ys => if lexCompare x y = .gt then y :: insertSorted x ys else x :: y :: ys

def sortStrings : List (List Nat) → List (List Nat)
  | [] => []
  | x :: xs => insertSorted x (sortStrings xs)

/-- The per-string offsets of a string table: each entry's offset, plus the
final offset after the last string. -/
def tableOffsets (start : Nat) : List (List Nat) → List Nat × Nat
  | [] => ([], start)
  | s :: rest =>
    let p := tableOffsets (start + (s.length + 1)) rest
    (start :: p.1, p.2)

/-- Index map from each sorted string to its table position. -/
def enumIdx : List (List Nat) → Nat → List (List Nat × Nat)
  | [], _ => []
  | s :: rest, i => (s, i) :: enumIdx rest (i + 1)

/-- `ContainerHeader::new` serialized: type tag byte plus packed 24-bit
count, `None` when the count does not fit 24 bits. -/
def container_header_bytes (o : ByteOrd) (tag n : Nat) : Option (List Nat) :=
  if n < 2 ^ 24 then some (tag :: entries24Bytes o n) else none

/-- `BymlWriter::write_string_table`: sort the set, lay out each string's
offset after the header and the `(len + 1)`-entry index, push the sentinel
`final_offset - 1`, then emit the header, the index (a native-endian
`Vec<u32>`, modelled as a little-endian host) and the nul-terminated
strings; returns the string-to-index map. -/
def write_string_table (o : ByteOrd) (table : List (List Nat)) (buf : List Nat)
    (pos : Nat) : Except WriteErrorM (List Nat × List (List Nat × Nat)) :=
  let sorted := sortStrings table
  let p := tableOffsets (4 + align_up ((table.length + 1) * 4) 4) sorted
  let offsets := p.1 ++ [p.2 - 1]
  match container_header_bytes o 0xC2 sorted.length with
  | none => .error .overflowed
  | some hdr =>
    let buf1 := writeBytesAt buf pos hdr
    let buf2 := writeBytesAt buf1 (pos + 4) (offsets.flatMap (u32Bytes .le))
    let buf3 := writeBytesAt buf2 (pos + 4 + offsets.length * 4)
      (sorted.flatMap (fun s => s ++ [0]))
    .ok (buf3, enumIdx sorted 0)

/-- Association lookup of a container's assigned offset
(`containers.get(&cont)`). -/
def lookupC : List (WContainer × Nat) → WContainer → Option Nat
  | [], _ => none
  | (c, off) :: rest, q => if c == q then some off else lookupC rest q

/-- Association lookup of a string's table index. -/
def lookupS : List (List Nat × Nat) → List Nat → Option Nat
  | [], _ => none
  | (s, i) :: rest, q => if s = q then some i else lookupS rest q

/-- `BymlWriter::write_long`: seek to the long-value arena, advance the
arena pointer by the value size (checked), write the 8 bytes, seek back;
returns the value's offset. -/
def write_long (o : ByteOrd) (buf : List Nat) (long_offset : Nat) (v : Nat) :
    Except WriteErrorM (Nat × List Nat × Nat) :=
  if long_offset + 8 < 2 ^ 32 then
    .ok (long_offset, writeBytesAt buf long_offset (u64Bytes o v), long_offset + 8)
  else .error .overflowed

/-- `BymlWriter::get_value`: the 4-byte slot value of an element — a node
offset for containers (looked up in the ingest map, present by the ingest
invariant, so the source's `.expect(..)` cannot fire), 0/1 for booleans, the
raw bit pattern for 32-bit scalars, the long-value offset for 64-bit scalars
(written on the spot), the table index for strings, 0 for null. -/
def get_value (o : ByteOrd) (cmap : List (WContainer × Nat)) (nodes_start : Nat)
    (strings : List (List Nat × Nat)) (buf : List Nat) (long_offset : Nat)
    (ele : WNode) : Except WriteErrorM (Nat × List Nat × Nat) :=
  match ele with
  | .array es =>
    if nodes_start + (lookupC cmap (.array es)).getD 0 < 2 ^ 32 then
      .ok (nodes_start + (lookupC cmap (.array es)).getD 0, buf, long_offset)
    else .error .overflowed
  | .dictionary ps =>
    if nodes_start + (lookupC cmap (.dictionary ps)).getD 0 < 2 ^ 32 then
      .ok (nodes_start + (lookupC cmap (.dictionary ps)).getD 0, buf, long_offset)
    else .error .overflowed
  | .bool b => .ok (if b then 1 else 0, buf, long_offset)
  | .i32 v => .ok (v, buf, long_offset)
  | .f32 v => .ok (v, buf, long_offset)
  | .u32 v => .ok (v, buf, long_offset)
  | .i64 v => write_long o buf long_offset v
  | .u64 v => write_long o buf long_offset v
  | .f64 v => write_long o buf long_offset v
  | .string s => .ok ((lookupS strings s).getD 0, buf, long_offset)
  | .null => .ok (0, buf, long_offset)

/-- The element loop of the array emission: collect the type tag and slot
value of every element in order, threading the sink (for long values). -/
def collect_values (o : ByteOrd) (cmap : List (WContainer × Nat)) (nodes_start : Nat)
    (strings : List (List Nat × Nat)) :
    List WNode → List Nat → Nat →
      Except WriteErrorM (List Nat × List Nat × List Nat × Nat)
  | [], buf, lo => .ok ([], [], buf, lo)
  | e :: rest, buf, lo =>
    match get_value o cmap nodes_start strings buf lo e with
    | .error er => .error er
    | .ok (v, buf2, lo2) =>
      match collect_values o cmap nodes_start strings rest buf2 lo2 with
      | .error er => .error er
      | .ok (ts, vs, buf3, lo3) => .ok (wnode_data_type e :: ts, v :: vs, buf3, lo3)

/-- The entry loop of the dictionary emission: for each sorted entry, obtain
the slot value, look up the key's table index (present by the ingest
invariant), and emit the 8-byte `DictEntry` (`DictEntry::new` fails when the
key index does not fit 24 bits). -/
def emit_dict_entries (o : ByteOrd) (cmap : List (WContainer × Nat))
    (nodes_start : Nat) (strings keysMap : List (List Nat × Nat)) :
    List (List Nat × WNode) → List Nat → Nat → Nat →
      Except WriteErrorM (List Nat × Nat)
  | [], buf, _, lo => .ok (buf, lo)
  | (k, v) :: rest, buf, pos, lo =>
    match get_value o cmap nodes_start strings buf lo v with
    | .error e => .error e
    | .ok (value, buf2, lo2) =>
      if (lookupS keysMap k).getD 0 < 2 ^ 24 then
        emit_dict_entries o cmap nodes_start strings keysMap rest
          (writeBytesAt buf2 pos
            (entries24Bytes o ((lookupS keysMap k).getD 0) ++ [wnode_data_type v]
              ++ u32Bytes o value))
          (pos + 8) lo2
      else .error .overflowed

/-- The emission of one container at its assigned offset.  For an array the
source computes `align = 4 - (stream_position & 3)` and seeks forward by it:
when the type list ends 4-aligned this skips 4 extra bytes instead of 0.
Array value slots are written as a native-endian `Vec<u32>` (modelled as a
little-endian host); dictionary entries use the document byte order. -/
def emit_container (o : ByteOrd) (cmap : List (WContainer × Nat)) (nodes_start : Nat)
    (strings keysMap : List (List Nat × Nat)) (c : WContainer) (coff : Nat)
    (buf : List Nat) (lo : Nat) : Except WriteErrorM (List Nat × Nat) :=
  if 2 ^ 32 ≤ nodes_start + coff then .error .overflowed
  else
    match c with
    | .array es =>
      match collect_values o cmap nodes_start strings es buf lo with
      | .error e => .error e
      | .ok (types, values, buf2, lo2) =>
        match container_header_bytes o 0xC0 es.length with
        | none => .error .overflowed
        | some hdr =>
          .ok (writeBytesAt
            (writeBytesAt (writeBytesAt buf2 (nodes_start + coff) hdr)
              (nodes_start + coff + 4) types)
            (nodes_start + coff + 4 + es.length
              + (4 - (nodes_start + coff + 4 + es.length) % 4))
            (values.flatMap (u32Bytes .le)), lo2)
    | .dictionary ps =>
      match container_header_bytes o 0xC1 ps.length with
      | none => .error .overflowed
      | some hdr =>
        emit_dict_entries o cmap nodes_start strings keysMap ps
          (writeBytesAt buf (nodes_start + coff) hdr) (nodes_start + coff + 4) lo

/-- The emission loop over the container set (same order as the layout
pass). -/
def emit_all (o : ByteOrd) (cmap : List (WContainer × Nat)) (nodes_start : Nat)
    (strings keysMap : List (List Nat × Nat)) :
    List (WContainer × Nat) → List Nat → Nat → Except WriteErrorM (List Nat)
  | [], buf, _ => .ok buf
  | (c, off) :: rest, buf, lo =>
    match emit_container o cmap nodes_start strings keysMap c off buf lo with
    | .error e => .error e
    | .ok (buf2, lo2) => emit_all o cmap nodes_start strings keysMap rest buf2 lo2

/-- The magic bytes written by the writer: `"YB"` little endian, `"BY"` big
endian. -/
def magicBytes : ByteOrd → List Nat
  | .le => [0x59, 0x42]
  | .be => [0x42, 0x59]

/-- `BymlWriter::write`: the collection pass over the deduplicated container
set, the layout of the two string tables and the node region (the hash-key
table offset in the header is always `size_of::<Header>() = 16`, even when
the key table is empty), the header emission, both string tables (the empty
key table bytes are overwritten when the value table lands at the same
offset), and the emission of every container followed by the long-value
arena appended after the node region. -/
def byml_write (o : ByteOrd) (w : WContainer) (version : WVersion) :
    Except WriteErrorM (List Nat) :=
  match pass1 (collect w) [] 0 0 [] [] with
  | .error e => .error e
  | .ok (cmap, container_offset, _data_size, strings, keys) =>
    match (if keys.isEmpty then Except.ok 0
           else if align_up (sumLen keys) 4 < 2 ^ 32 then
             calc_table_total keys.length (align_up (sumLen keys) 4)
           else Except.error WriteErrorM.overflowed) with
    | .error e => .error e
    | .ok keys_total =>
      match (if strings.isEmpty then Except.ok 0
             else if align_up (sumLen strings) 4 < 2 ^ 32 then
               calc_table_total strings.length (align_up (sumLen strings) 4)
             else Except.error WriteErrorM.overflowed) with
      | .error e => .error e
      | .ok strings_total =>
      if 2 ^ 32 ≤ 16 + keys_total + strings_total then .error .overflowed
      else if 2 ^ 32 ≤ align_up (16 + keys_total + strings_total) 4 then
        .error .overflowed
      else if 2 ^ 32 ≤ align_up (16 + keys_total + strings_total) 4
          + (lookupC cmap w).getD 0 then .error .overflowed
      else
        match write_string_table o keys
            (writeBytesAt [] 0
              (magicBytes o ++ u16Bytes o (versionNat version)
                ++ u32Bytes o 16 ++ u32Bytes o (16 + keys_total)
                ++ u32Bytes o (align_up (16 + keys_total + strings_total) 4
                    + (lookupC cmap w).getD 0)))
            16 with
        | .error e => .error e
        | .ok (buf1, keysMap) =>
          match write_string_table o strings buf1 (16 + keys_total) with
          | .error e => .error e
          | .ok (buf2, stringsMap) =>
            if 2 ^ 32 ≤ align_up (16 + keys_total + strings_total) 4
                + container_offset then .error .overflowed
            else
              emit_all o cmap (align_up (16 + keys_total + strings_total) 4)
                stringsMap keysMap cmap buf2
                (align_up (16 + keys_total + strings_total) 4 + container_offset)

/-- Serialize a writer tree and reopen the produced buffer, returning the
resolved root-array elements (empty when any stage fails or the root is not
an array). -/
def round_trip_elements (o : ByteOrd) (c : WContainer) (v : WVersion) :
    List ElemRes :=
  match byml_write o c v with
  | .error _ => []
  | .ok buf =>
    match byml_reader_new o buf with
    | .ok (.array r) => read_elements o r
    | _ => []

/-- A writer tree whose root array holds the u32 values 1, 2, 3, 4. -/
def c1Tree : WContainer := .array [.u32 1, .u32 2, .u32 3, .u32 4]

/-- C1: the claim says `read(write(T)) == T` in content for every writer
tree.  For an array of four u32 values (1, 2, 3, 4) the array emitter
computes its padding as `4 - (stream_position & 3)`, which seeks 4 extra
bytes when the type list already ends 4-aligned, so the value slots are
written 4 bytes past where the reader looks: reading the serialized buffer
back yields the values 0, 1, 2, 3 — not the original content. -/
theorem c1_roundtrip_not_identity :
    round_trip_elements .le c1Tree .v3 =
      [.ok (some (.u32 0)), .ok (some (.u32 1)), .ok (some (.u32 2)),
        .ok (some (.u32 3))] ∧
    ([.ok (some (.u32 0)), .ok (some (.u32 1)), .ok (some (.u32 2)),
        .ok (some (.u32 3))] : List ElemRes) ≠
      [.ok (some (.u32 1)), .ok (some (.u32 2)), .ok (some (.u32 3)),
        .ok (some (.u32 4))] :=
  ⟨rfl, by decide⟩

/-- C10: every builder operation that accepts a string or key panics exactly
when the argument contains a nul byte and succeeds otherwise (the
`CString::new(..).expect(..)` calls of `push_string`, `insert_string`,
`insert_null` and the keyed `insert_*` macro operations), and the terminal
`write` can only fail with an overflow or I/O error — `WriteError` has no
other variant. -/
theorem c10_builder_nul_panics :
    (∀ arr value, (push_string arr value = none ↔ 0 ∈ value) ∧
      (0 ∉ value → push_string arr value = some (arr ++ [WNode.string value]))) ∧
    (∀ d key value, insert_string d key value = none ↔ 0 ∈ key ∨ 0 ∈ value) ∧
    (∀ d key, insert_null d key = none ↔ 0 ∈ key) ∧
    (∀ d key node, dict_insert_node d key node = none ↔ 0 ∈ key) ∧
    (∀ e : WriteErrorM, e = .overflowed ∨ e = .ioError) := by
  refine ⟨?_, ?_, ?_, ?_, ?_⟩
  · intro arr value
    constructor
    · unfold push_string cstring_new
      by_cases h : 0 ∈ value <;> simp [h]
    · intro h
      unfold push_string cstring_new
      simp [h]
  · intro d key value
    unfold insert_string cstring_new
    by_cases h1 : 0 ∈ key <;> by_cases h2 : 0 ∈ value <;> simp [h1, h2]
  · intro d key
    unfold insert_null cstring_new
    by_cases h : 0 ∈ key <;> simp [h]
  · intro d key node
    unfold dict_insert_node cstring_new
    by_cases h : 0 ∈ key <;> simp [h]
  · intro e
    cases e
    · exact Or.inl rfl
    · exact Or.inr rfl

/-- Witness for C10 at concrete inputs: a clean string is pushed, strings
and keys holding a nul byte panic. -/
theorem c10_builder_nul_panics_witness :
    push_string [] [104, 105] = some [WNode.string [104, 105]] ∧
    push_string [] [104, 0, 105] = none ∧
    insert_string [] [107] [0] = none ∧
    insert_null [] [0] = none ∧
    dict_insert_node [] [0] (WNode.u32 1) = none :=
  ⟨(c10_builder_nul_panics.1 [] [104, 105]).2 (by decide),
   (c10_builder_nul_panics.1 [] [104, 0, 105]).1.mpr (by decide),
   (c10_builder_nul_panics.2.1 [] [107] [0]).mpr (by decide),
   (c10_builder_nul_panics.2.2.1 [] [0]).mpr (by decide),
   (c10_builder_nul_panics.2.2.2.1 [] [0] (WNode.u32 1)).mpr (by decide)⟩


end Senobi
